import Mathlib

/-!
# `GetSciper` (src/getSciper.js)

A shallow embedding of the spreadsheet custom function `GetSciper` and of the
two `String.prototype` methods it relies on (`indexOf` and `slice`), followed
by the properties of the function.

A JavaScript string is modelled as the list of its UTF-16 code units, so that
indices and lengths are the ones JavaScript computes.  The host spreadsheet API
is an argument of the function: it gives the formula of the active cell and
resolves a range reference to a grid of rich-text values or throws.  The other
accessors (`getActiveSpreadsheet`, `getActiveSheet`, `getActiveRange`,
`getFormula`, `getRichTextValues`, `getLinkUrl`) are taken to return, and
`getLinkUrl` to return a string, the empty one for a cell without hyperlink.
A call of the function yields the list of host calls it made together with the
grid it returned or the error it threw.
-/

namespace AdrVote

/-! ## JavaScript strings -/

/-- A UTF-16 code unit. -/
abbrev CodeUnit := Nat

/-- A JavaScript string, as the sequence of its UTF-16 code units. -/
abbrev JSString := List CodeUnit

/-- The code units of one Unicode scalar value (a surrogate pair above the BMP). -/
def utf16Char (c : Char) : List CodeUnit :=
  if c.toNat < 0x10000 then [c.toNat]
  else [0xD800 + (c.toNat - 0x10000) / 0x400, 0xDC00 + (c.toNat - 0x10000) % 0x400]

/-- The JavaScript string written by a string literal. -/
def js (s : String) : JSString := s.toList.flatMap utf16Char

/-- The code unit of the character `(`. -/
abbrev lparenUnit : CodeUnit := 40

/-- The code unit of the character `)`. -/
abbrev rparenUnit : CodeUnit := 41

/-- The code unit of the character `=`. -/
abbrev equalsUnit : CodeUnit := 61

/-- The string `"("`. -/
def lparen : JSString := [lparenUnit]

/-- The string `")"`. -/
def rparen : JSString := [rparenUnit]

/-- The string `"="`. -/
def equalsSign : JSString := [equalsUnit]

/-- Search of `searchString` in the rest `s` of a string whose first unit has index `k`:
the index of the first position at which `searchString` occurs, `-1` when there is none. -/
def indexOfFrom (searchString : JSString) : JSString → Nat → Int
  | [], k => if searchString.isPrefixOf [] then (k : Int) else -1
  | c :: rest, k =>
    if searchString.isPrefixOf (c :: rest) then (k : Int)
    else indexOfFrom searchString rest (k + 1)

/-- `s.indexOf(searchString)`: the index of the first occurrence, or `-1`. -/
def indexOf (s searchString : JSString) : Int := indexOfFrom searchString s 0

/-- The clamping `slice` applies to an integer argument: a negative index counts from the
end of the string, and the result lies between `0` and `len`. -/
def clampIndex (len : Nat) (i : Int) : Nat :=
  if i < 0 then (max ((len : Int) + i) 0).toNat else min i.toNat len

/-- `s.slice(start, stop)`; `stop = none` is the call with one argument, `s.slice(start)`. -/
def slice (s : JSString) (start : Int) (stop : Option Int) : JSString :=
  let len := s.length
  let frm := clampIndex len start
  let upto := match stop with
    | none => len
    | some e => clampIndex len e
  if frm ≥ upto then [] else (s.drop frm).take (upto - frm)

/-! ## The host spreadsheet -/

/-- A rich-text value of a cell; `getLinkUrl()` returns `linkUrl`. -/
structure RichTextValue where
  linkUrl : JSString

/-- The calls `GetSciper` makes to the host, in the order it makes them. -/
inductive HostCall where
  | getActiveSpreadsheet
  | getActiveSheet
  | getActiveRange
  | getFormula
  | getRange (a1Notation : Option JSString)
  | getRichTextValues
  | getLinkUrl (row col : Nat)
  deriving DecidableEq

/-- The host at the time of a call: the formula of the active cell, and the resolution of a
range reference on the active sheet, which returns the rich-text values of the range, row by
row, or throws an error of type `ε`.  The argument of `getRange` is `none` for `undefined`. -/
structure Host (ε : Type) where
  formula : JSString
  getRange : Option JSString → Except ε (List (List RichTextValue))

/-- What one call of the function does: the host calls it made and the grid it returned, or
the error it threw. -/
structure Outcome (ε : Type) where
  calls : List HostCall
  result : Except ε (List (List JSString))

/-! ## The function -/

/-- The constant `matches` of `GetSciper` (a reserved word here, hence the underscore): the
range reference read off the formula text, `none` for `undefined`. -/
def matches_ (myFormula : JSString) : Option JSString :=
  if indexOf myFormula lparen ≠ -1 ∧ indexOf myFormula rparen ≠ -1 then
    some (slice myFormula (indexOf myFormula lparen + 1) (some (indexOf myFormula rparen)))
  else none

/-- The inner arrow function of `GetSciper` on the URL that `getLinkUrl()` returns:
`url.slice(url.indexOf("=") + 1)`. -/
def derivedValue (url : JSString) : JSString :=
  slice url (indexOf url equalsSign + 1) none

/-- The constant `linkUrls` of `GetSciper`: the two nested `map`s over the rich-text values. -/
def linkUrls (values : List (List RichTextValue)) : List (List JSString) :=
  values.map (fun ia => ia.map (fun row => derivedValue row.linkUrl))

/-- The `getLinkUrl()` calls of one row of the range: two for each cell. -/
def linkCallsRow (i : Nat) (ia : List RichTextValue) : List HostCall :=
  (List.range ia.length).flatMap (fun j => [HostCall.getLinkUrl i j, HostCall.getLinkUrl i j])

/-- The `getLinkUrl()` calls of the rows of a range, the first of which has index `i`. -/
def linkCallsFrom : Nat → List (List RichTextValue) → List HostCall
  | _, [] => []
  | i, ia :: rest => linkCallsRow i ia ++ linkCallsFrom (i + 1) rest

/-- The function `GetSciper`; its parameter `input` is not used. -/
def GetSciper {α ε : Type} (_input : α) (host : Host ε) : Outcome ε :=
  let opening := [HostCall.getActiveSpreadsheet, HostCall.getActiveSheet,
    HostCall.getActiveRange, HostCall.getFormula]
  let myFormula := host.formula
  let matches_ := matches_ myFormula
  match host.getRange matches_ with
  | .error e => ⟨opening ++ [HostCall.getRange matches_], .error e⟩
  | .ok values =>
    ⟨opening ++ [HostCall.getRange matches_, HostCall.getRichTextValues]
        ++ linkCallsFrom 0 values,
      .ok (linkUrls values)⟩

/-! ## Sample hosts -/

/-- A cell whose hyperlink is `"...?x=SCIPER123"`. -/
def sciperCell : RichTextValue := ⟨js "...?x=SCIPER123"⟩

/-- A host whose active cell holds `=Fn(A1:B2)` and whose range `A1:B2` is a 2×2 grid of
cells with the hyperlink `"...?x=SCIPER123"`; every other reference fails. -/
def sciperHost : Host JSString where
  formula := js "=Fn(A1:B2)"
  getRange := fun a1Notation =>
    if a1Notation = some (js "A1:B2") then .ok [[sciperCell, sciperCell], [sciperCell, sciperCell]]
    else .error (js "Range not found")

/-- A host whose active cell holds the formula `formula` and whose range resolution fails on
`undefined` and on `""`, and gives one cell without hyperlink otherwise. -/
def strictHost (formula : JSString) : Host JSString where
  formula := formula
  getRange := fun a1Notation =>
    match a1Notation with
    | none => .error (js "Range not found")
    | some [] => .error (js "Range not found")
    | some _ => .ok [[⟨js ""⟩]]

/-! ## `indexOf` with a search string of one code unit -/

theorem indexOfFrom_unit_nil (c : CodeUnit) (k : Nat) : indexOfFrom [c] [] k = -1 := by
  simp [indexOfFrom, List.isPrefixOf]

theorem indexOfFrom_unit_cons (c d : CodeUnit) (rest : JSString) (k : Nat) :
    indexOfFrom [c] (d :: rest) k = if c = d then (k : Int) else indexOfFrom [c] rest (k + 1) := by
  simp [indexOfFrom, List.isPrefixOf]

/-- Before the first occurrence of `c`, at the end of a part `p` without `c`, the search
returns the length of `p`. -/
theorem indexOfFrom_unit_append (c : CodeUnit) (p t : JSString) (k : Nat) (hp : c ∉ p) :
    indexOfFrom [c] (p ++ c :: t) k = ((k + p.length : Nat) : Int) := by
  induction p generalizing k with
  | nil => simp [indexOfFrom_unit_cons]
  | cons d p ih =>
    have hd : c ≠ d := fun h => hp (by simp [h])
    have hp2 : c ∉ p := fun h => hp (by simp [h])
    rw [List.cons_append, indexOfFrom_unit_cons, if_neg hd, ih (k + 1) hp2]
    simp only [List.length_cons]
    congr 1
    omega

/-- The search of a unit that does not occur returns `-1`. -/
theorem indexOfFrom_unit_absent (c : CodeUnit) (s : JSString) (k : Nat) (hs : c ∉ s) :
    indexOfFrom [c] s k = -1 := by
  induction s generalizing k with
  | nil => exact indexOfFrom_unit_nil c k
  | cons d s ih =>
    have hd : c ≠ d := fun h => hs (by simp [h])
    have hs2 : c ∉ s := fun h => hs (by simp [h])
    rw [indexOfFrom_unit_cons, if_neg hd, ih (k + 1) hs2]

/-- A string in which `c` occurs splits at the first occurrence. -/
theorem exists_first_split (c : CodeUnit) (s : JSString) (hs : c ∈ s) :
    ∃ p t, s = p ++ c :: t ∧ c ∉ p := by
  induction s with
  | nil => simp at hs
  | cons d s ih =>
    by_cases hd : c = d
    · exact ⟨[], s, by simp [hd], by simp⟩
    · have hs2 : c ∈ s := by
        rcases List.mem_cons.mp hs with h | h
        · exact absurd h hd
        · exact h
      obtain ⟨p, t, hpt, hp⟩ := ih hs2
      refine ⟨d :: p, t, by simp [hpt], ?_⟩
      intro h
      rcases List.mem_cons.mp h with h | h
      · exact hd h
      · exact hp h

theorem indexOf_unit_append (c : CodeUnit) (p t : JSString) (hp : c ∉ p) :
    indexOf (p ++ c :: t) [c] = (p.length : Int) := by
  unfold indexOf
  rw [indexOfFrom_unit_append c p t 0 hp]
  simp

theorem indexOf_unit_absent (c : CodeUnit) (s : JSString) (hs : c ∉ s) :
    indexOf s [c] = -1 :=
  indexOfFrom_unit_absent c s 0 hs

theorem indexOf_unit_eq_neg_one_iff (c : CodeUnit) (s : JSString) :
    indexOf s [c] = -1 ↔ c ∉ s := by
  constructor
  · intro h hs
    obtain ⟨p, t, rfl, hp⟩ := exists_first_split c s hs
    rw [indexOf_unit_append c p t hp] at h
    omega
  · exact indexOf_unit_absent c s

/-! ## `slice` at the arguments `GetSciper` passes -/

theorem clampIndex_natCast (len n : Nat) : clampIndex len (n : Int) = min n len := by
  unfold clampIndex
  have h : ¬ ((n : Int) < 0) := by omega
  rw [if_neg h]
  simp

/-- With one argument that is a natural number, `slice` drops that many units. -/
theorem slice_nat_none (s : JSString) (n : Nat) : slice s (n : Int) none = s.drop n := by
  unfold slice
  simp only [clampIndex_natCast]
  by_cases hn : s.length ≤ n
  · have h1 : min n s.length ≥ s.length := by omega
    rw [if_pos h1, List.drop_of_length_le hn]
  · have h1 : ¬ (min n s.length ≥ s.length) := by omega
    have h2 : min n s.length = n := by omega
    rw [if_neg h1, h2]
    exact List.take_of_length_le (by simp)

/-- With two arguments that are natural numbers, `slice` is the units from index `n` up to
index `m`, the latter excluded. -/
theorem slice_nat_some (s : JSString) (n m : Nat) :
    slice s (n : Int) (some (m : Int)) = (s.drop n).take (m - n) := by
  unfold slice
  simp only [clampIndex_natCast]
  by_cases hn : s.length ≤ n
  · rw [List.drop_of_length_le hn]
    have h1 : min n s.length ≥ min m s.length := by omega
    rw [if_pos h1]
    simp
  · have h2 : min n s.length = n := by omega
    rw [h2]
    by_cases hm : m ≤ n
    · have h1 : n ≥ min m s.length := by omega
      have h3 : m - n = 0 := by omega
      rw [if_pos h1, h3]
      simp
    · have h1 : ¬ (n ≥ min m s.length) := by omega
      rw [if_neg h1]
      by_cases hl : m ≤ s.length
      · have h3 : min m s.length = m := by omega
        rw [h3]
      · have h3 : min m s.length = s.length := by omega
        rw [h3, List.take_of_length_le (by simp), List.take_of_length_le]
        simp only [List.length_drop]
        omega

/-! ## The range reference and the derived value -/

theorem derivedValue_split (p t : JSString) (hp : equalsUnit ∉ p) :
    derivedValue (p ++ equalsUnit :: t) = t := by
  unfold derivedValue equalsSign
  rw [indexOf_unit_append equalsUnit p t hp]
  have h := slice_nat_none (p ++ equalsUnit :: t) (p.length + 1)
  simp only [Nat.cast_add, Nat.cast_one] at h
  rw [h, show p ++ equalsUnit :: t = (p ++ [equalsUnit]) ++ t by simp]
  exact List.drop_left' (by simp)

theorem derivedValue_absent (url : JSString) (h : equalsUnit ∉ url) :
    derivedValue url = url := by
  unfold derivedValue equalsSign
  rw [indexOf_unit_absent equalsUnit url h]
  have h0 := slice_nat_none url 0
  simp only [Nat.cast_zero, List.drop_zero] at h0
  simpa using h0

theorem matches_undefined_iff (myFormula : JSString) :
    matches_ myFormula = none ↔ (lparenUnit ∉ myFormula ∨ rparenUnit ∉ myFormula) := by
  unfold matches_ lparen rparen
  rw [← indexOf_unit_eq_neg_one_iff, ← indexOf_unit_eq_neg_one_iff]
  by_cases h1 : indexOf myFormula [lparenUnit] = -1
  · simp [h1]
  · by_cases h2 : indexOf myFormula [rparenUnit] = -1
    · simp [h2]
    · simp [h1, h2]

/-- The range reference when both delimiters occur, from the lengths of the parts before
their first occurrences. -/
theorem matches_of_splits (myFormula p t q u : JSString)
    (h1 : myFormula = p ++ lparenUnit :: t) (hp : lparenUnit ∉ p)
    (h2 : myFormula = q ++ rparenUnit :: u) (hq : rparenUnit ∉ q) :
    matches_ myFormula = some ((myFormula.drop (p.length + 1)).take (q.length - (p.length + 1))) := by
  have i1 : indexOf myFormula [lparenUnit] = (p.length : Int) := by
    rw [h1]; exact indexOf_unit_append lparenUnit p t hp
  have i2 : indexOf myFormula [rparenUnit] = (q.length : Int) := by
    rw [h2]; exact indexOf_unit_append rparenUnit q u hq
  unfold matches_ lparen rparen
  rw [i1, i2]
  have c : ((p.length : Int) ≠ -1 ∧ (q.length : Int) ≠ -1) := by constructor <;> omega
  rw [if_pos c]
  have h := slice_nat_some myFormula (p.length + 1) q.length
  simp only [Nat.cast_add, Nat.cast_one] at h
  rw [h]

/-! ## The two outcomes of a call -/

/-- The calls made before the range reference is resolved. -/
def openingCalls : List HostCall :=
  [HostCall.getActiveSpreadsheet, HostCall.getActiveSheet, HostCall.getActiveRange,
    HostCall.getFormula]

theorem GetSciper_of_ok {α ε : Type} (input : α) (host : Host ε)
    (values : List (List RichTextValue))
    (h : host.getRange (matches_ host.formula) = .ok values) :
    GetSciper input host =
      ⟨openingCalls ++ [HostCall.getRange (matches_ host.formula), HostCall.getRichTextValues]
        ++ linkCallsFrom 0 values, .ok (linkUrls values)⟩ := by
  simp only [GetSciper, openingCalls, h]

theorem GetSciper_of_error {α ε : Type} (input : α) (host : Host ε) (e : ε)
    (h : host.getRange (matches_ host.formula) = .error e) :
    GetSciper input host =
      ⟨openingCalls ++ [HostCall.getRange (matches_ host.formula)], .error e⟩ := by
  simp only [GetSciper, openingCalls, h]

theorem linkUrls_entry (values : List (List RichTextValue)) (i j : Nat) :
    ((linkUrls values)[i]?.bind fun r => r[j]?) =
      (values[i]?.bind fun ia => ia[j]?).map fun row => derivedValue row.linkUrl := by
  unfold linkUrls
  rw [List.getElem?_map]
  cases values[i]? with
  | none => rfl
  | some ia => simp [List.getElem?_map]

theorem linkUrls_lengths (values : List (List RichTextValue)) :
    (linkUrls values).map List.length = values.map List.length := by
  unfold linkUrls
  simp [List.map_map, Function.comp_def]

theorem mem_linkCallsRow (i : Nat) (ia : List RichTextValue) (call : HostCall)
    (h : call ∈ linkCallsRow i ia) : ∃ j, call = HostCall.getLinkUrl i j := by
  unfold linkCallsRow at h
  obtain ⟨j, _, hj⟩ := List.mem_flatMap.mp h
  refine ⟨j, ?_⟩
  simpa using hj

theorem mem_linkCallsFrom (i : Nat) (values : List (List RichTextValue)) (call : HostCall)
    (h : call ∈ linkCallsFrom i values) : ∃ r j, call = HostCall.getLinkUrl r j := by
  induction values generalizing i with
  | nil => simp [linkCallsFrom] at h
  | cons ia rest ih =>
    simp only [linkCallsFrom, List.mem_append] at h
    rcases h with h | h
    · obtain ⟨j, hj⟩ := mem_linkCallsRow i ia call h
      exact ⟨i, j, hj⟩
    · exact ih (i + 1) h

/-! ## Properties of the derived value -/

/-- C1: a URL in which `=` occurs splits as `p ++ "=" ++ s` with no `=` in `p`, and for every
such split the value derived for the cell is `s`, the substring following the first `=`;
later `=` characters stay in it. -/
theorem derivedValue_after_first_equals (url : JSString) (h : equalsUnit ∈ url) :
    (∃ p s, url = p ++ equalsSign ++ s ∧ equalsUnit ∉ p) ∧
      ∀ p s, url = p ++ equalsSign ++ s → equalsUnit ∉ p → derivedValue url = s := by
  constructor
  · obtain ⟨p, t, hpt, hp⟩ := exists_first_split equalsUnit url h
    exact ⟨p, t, by simp [hpt, equalsSign], hp⟩
  · intro p s hps hp
    rw [hps, show p ++ equalsSign ++ s = p ++ equalsUnit :: s by simp [equalsSign]]
    exact derivedValue_split p s hp

theorem derivedValue_after_first_equals_witness :
    equalsUnit ∈ js "a=b=c" ∧ derivedValue (js "a=b=c") = js "b=c" :=
  ⟨by decide,
    (derivedValue_after_first_equals (js "a=b=c") (by decide)).2 (js "a") (js "b=c")
      (by decide) (by decide)⟩

/-- C4, as the code has it: for a URL without `=`, `indexOf` gives `-1`, the slice starts at
index `0`, and the value derived for the cell is the whole URL, unchanged. -/
theorem derivedValue_without_equals (url : JSString) (h : equalsUnit ∉ url) :
    derivedValue url = url :=
  derivedValue_absent url h

theorem derivedValue_without_equals_witness :
    equalsUnit ∉ js "https://example.com" ∧
      derivedValue (js "https://example.com") = js "https://example.com" :=
  ⟨by decide, derivedValue_without_equals (js "https://example.com") (by decide)⟩

/-- C4 as stated fails: `"https://example.com"` has no `=`, and the value derived for it is
not the URL with its first character removed (`"ttps://example.com"`). -/
theorem derivedValue_first_character_kept :
    equalsUnit ∉ js "https://example.com" ∧
      derivedValue (js "https://example.com") ≠ (js "https://example.com").drop 1 ∧
      derivedValue (js "https://example.com") ≠ slice (js "https://example.com") 1 none := by
  decide

/-- C5: for a cell without hyperlink, whose URL the host gives as the empty string, the
derived value is the empty string, and so is the entry of the grid for that cell. -/
theorem derivedValue_empty :
    derivedValue (js "") = js "" ∧ js "" = [] ∧
      linkUrls [[RichTextValue.mk (js "")]] = [[js ""]] := by
  decide

/-- C10: the derived value is a suffix of the URL; it is the whole URL exactly when the URL
has no `=`; and when the first `=` is at index `k`, its length is `url.length - k - 1`. -/
theorem derivedValue_suffix (url : JSString) :
    derivedValue url <:+ url ∧
      (derivedValue url = url ↔ equalsUnit ∉ url) ∧
      ∀ k : Nat, url[k]? = some equalsUnit → (∀ i, i < k → url[i]? ≠ some equalsUnit) →
        (derivedValue url).length = url.length - k - 1 := by
  by_cases h : equalsUnit ∈ url
  · obtain ⟨p, t, rfl, hp⟩ := exists_first_split equalsUnit url h
    rw [derivedValue_split p t hp]
    refine ⟨⟨p ++ [equalsUnit], by simp⟩, ?_, ?_⟩
    · constructor
      · intro he
        have hl := congrArg List.length he
        simp at hl
        omega
      · intro hn
        exact absurd h hn
    · intro k hk hfirst
      have hkp : k = p.length := by
        rcases Nat.lt_trichotomy k p.length with hlt | heq | hgt
        · exfalso
          rw [List.getElem?_append_left hlt] at hk
          have hm : equalsUnit ∈ p := by
            obtain ⟨hlt2, hget⟩ := List.getElem?_eq_some.mp hk
            rw [← hget]
            exact List.getElem_mem hlt2
          exact hp hm
        · exact heq
        · exfalso
          apply hfirst p.length hgt
          rw [List.getElem?_append_right (Nat.le_refl _)]
          simp
      subst hkp
      simp only [List.length_append, List.length_cons]
      omega
  · rw [derivedValue_absent url h]
    refine ⟨List.suffix_refl url, ?_, ?_⟩
    · simp [h]
    · intro k hk _
      exfalso
      apply h
      obtain ⟨hlt2, hget⟩ := List.getElem?_eq_some.mp hk
      rw [← hget]
      exact List.getElem_mem hlt2

theorem derivedValue_suffix_witness :
    derivedValue (js "a=b=c") <:+ js "a=b=c" ∧ (derivedValue (js "a=b=c")).length = 3 :=
  ⟨(derivedValue_suffix (js "a=b=c")).1,
    (derivedValue_suffix (js "a=b=c")).2.2 1 (by decide) (by decide)⟩

/-! ## Properties of the range reference -/

/-- C6: for a formula `a ++ "(" ++ b ++ ")" ++ c` where `a` has neither `(` nor `)` and `b`
has no `)`, the range reference is `b`, the substring strictly between the first `(` and the
first `)`. -/
theorem matches_between_parens (a b c : JSString)
    (ha : lparenUnit ∉ a) (ha2 : rparenUnit ∉ a) (hb : rparenUnit ∉ b) :
    matches_ (a ++ lparen ++ b ++ rparen ++ c) = some b := by
  have hq : rparenUnit ∉ a ++ lparenUnit :: b := by
    intro h
    rcases List.mem_append.mp h with h | h
    · exact ha2 h
    · rcases List.mem_cons.mp h with h | h
      · exact absurd h (by decide)
      · exact hb h
  rw [matches_of_splits (a ++ lparen ++ b ++ rparen ++ c) a (b ++ rparenUnit :: c)
    (a ++ lparenUnit :: b) c (by simp [lparen, rparen]) ha (by simp [lparen, rparen]) hq]
  have hd : List.drop (a.length + 1) (a ++ lparen ++ b ++ rparen ++ c) = b ++ (rparen ++ c) := by
    rw [show a ++ lparen ++ b ++ rparen ++ c = (a ++ lparen) ++ (b ++ (rparen ++ c)) by simp]
    exact List.drop_left' (by simp [lparen])
  rw [hd]
  have hl : (a ++ lparenUnit :: b).length - (a.length + 1) = b.length := by
    simp only [List.length_append, List.length_cons]
    omega
  rw [hl, List.take_left]

theorem matches_between_parens_witness :
    matches_ (js "=SomeFunction(A1:B3)") = some (js "A1:B3") :=
  matches_between_parens (js "=SomeFunction") (js "A1:B3") (js "") (by decide) (by decide)
    (by decide)

/-- C7: the range reference is undefined exactly when the formula lacks `(` or lacks `)`;
when both occur, it is a defined string. -/
theorem matches_undefined_iff_delimiter_missing (myFormula : JSString) :
    (matches_ myFormula = none ↔ (lparenUnit ∉ myFormula ∨ rparenUnit ∉ myFormula)) ∧
      ((lparenUnit ∈ myFormula ∧ rparenUnit ∈ myFormula) ↔ ∃ r, matches_ myFormula = some r) := by
  have h := matches_undefined_iff myFormula
  refine ⟨h, ?_⟩
  rw [← Option.isSome_iff_exists, ← Option.not_isSome_iff_eq_none] at *
  constructor
  · intro hb
    by_contra hc
    rcases h.mp hc with h1 | h1
    · exact h1 hb.1
    · exact h1 hb.2
  · intro hs
    constructor
    · by_contra hc
      exact h.mpr (Or.inl hc) hs
    · by_contra hc
      exact h.mpr (Or.inr hc) hs

/-- C9: for a formula `a ++ ")" ++ b ++ "(" ++ c` where `a` has neither delimiter and `b` has
no `(`, so that the first `)` comes before the first `(`, the range reference is the defined
empty string, and the one range resolution of a call on that formula is on `""`. -/
theorem matches_reversed_parens (a b c : JSString)
    (ha : lparenUnit ∉ a) (ha2 : rparenUnit ∉ a) (hb : lparenUnit ∉ b) :
    matches_ (a ++ rparen ++ b ++ lparen ++ c) = some [] ∧
      ∀ (α ε : Type) (input : α) (host : Host ε),
        host.formula = a ++ rparen ++ b ++ lparen ++ c →
          HostCall.getRange (some []) ∈ (GetSciper input host).calls ∧
          (∀ r, HostCall.getRange r ∈ (GetSciper input host).calls → r = some []) ∧
          (GetSciper input host).result = (host.getRange (some [])).map linkUrls := by
  have hp : lparenUnit ∉ a ++ rparenUnit :: b := by
    intro h
    rcases List.mem_append.mp h with h | h
    · exact ha h
    · rcases List.mem_cons.mp h with h | h
      · exact absurd h (by decide)
      · exact hb h
  have hm : matches_ (a ++ rparen ++ b ++ lparen ++ c) = some [] := by
    rw [matches_of_splits (a ++ rparen ++ b ++ lparen ++ c) (a ++ rparenUnit :: b) c
      a (b ++ lparenUnit :: c) (by simp [lparen, rparen]) hp (by simp [lparen, rparen]) ha2]
    have hl : a.length - ((a ++ rparenUnit :: b).length + 1) = 0 := by
      simp only [List.length_append, List.length_cons]
      omega
    rw [hl, List.take_zero]
  refine ⟨hm, ?_⟩
  intro α ε input host hf
  rw [← hf] at hm
  cases hr : host.getRange (some []) with
  | error e =>
    rw [← hm] at hr
    rw [GetSciper_of_error input host e hr, hm]
    refine ⟨by simp, ?_, rfl⟩
    intro r hmem
    simp [openingCalls] at hmem
    exact hmem
  | ok values =>
    rw [← hm] at hr
    rw [GetSciper_of_ok input host values hr, hm]
    refine ⟨by simp, ?_, rfl⟩
    intro r hmem
    simp only [List.mem_append, List.mem_cons, List.mem_singleton] at hmem
    rcases hmem with (hmem | hmem | hmem) | hmem
    · simp [openingCalls] at hmem
    · exact HostCall.getRange.inj hmem
    · simp at hmem
    · obtain ⟨r2, j, hj⟩ := mem_linkCallsFrom 0 values _ hmem
      simp at hj

theorem matches_reversed_parens_witness :
    matches_ (js "=)(") = some [] ∧
      (GetSciper () (strictHost (js "=)("))).result = .error (js "Range not found") :=
  ⟨(matches_reversed_parens (js "=") (js "") (js "") (by decide) (by decide) (by decide)).1,
    ((matches_reversed_parens (js "=") (js "") (js "") (by decide) (by decide) (by decide)).2
      Unit JSString () (strictHost (js "=)(")) (by decide)).2.2⟩

/-! ## Properties of the result -/

/-- C2: when the range reference of the formula resolves to a grid of cells, the function
returns a grid whose entry at row `i`, column `j` is the value derived from the URL of the
cell at row `i`, column `j` of the range (and is absent where the range has no cell); and
for the formula `=Fn(A1:B2)` resolving to a 2×2 grid of cells with hyperlinks
`p ++ "?x=SCIPER123"`, no `=` in `p`, the result is the 2×2 grid of `"SCIPER123"`. -/
theorem GetSciper_entries :
    (∀ (α ε : Type) (input : α) (host : Host ε) (values : List (List RichTextValue)),
      host.getRange (matches_ host.formula) = .ok values →
        ∃ grid, (GetSciper input host).result = .ok grid ∧
          ∀ i j : Nat, (grid[i]?.bind fun r => r[j]?) =
            (values[i]?.bind fun ia => ia[j]?).map fun row => derivedValue row.linkUrl) ∧
      (∀ (α ε : Type) (input : α) (host : Host ε) (p₁ p₂ p₃ p₄ : JSString),
        equalsUnit ∉ p₁ → equalsUnit ∉ p₂ → equalsUnit ∉ p₃ → equalsUnit ∉ p₄ →
        host.formula = js "=Fn(A1:B2)" →
        host.getRange (some (js "A1:B2")) =
          .ok [[⟨p₁ ++ js "?x=SCIPER123"⟩, ⟨p₂ ++ js "?x=SCIPER123"⟩],
            [⟨p₃ ++ js "?x=SCIPER123"⟩, ⟨p₄ ++ js "?x=SCIPER123"⟩]] →
        (GetSciper input host).result =
          .ok [[js "SCIPER123", js "SCIPER123"], [js "SCIPER123", js "SCIPER123"]]) := by
  constructor
  · intro α ε input host values h
    rw [GetSciper_of_ok input host values h]
    exact ⟨linkUrls values, rfl, linkUrls_entry values⟩
  · intro α ε input host p₁ p₂ p₃ p₄ h₁ h₂ h₃ h₄ hf hr
    have hm : matches_ host.formula = some (js "A1:B2") := by rw [hf]; decide
    rw [← hm] at hr
    rw [GetSciper_of_ok input host _ hr]
    have key : ∀ p : JSString, equalsUnit ∉ p →
        derivedValue (p ++ js "?x=SCIPER123") = js "SCIPER123" := by
      intro p hp
      have hq : equalsUnit ∉ p ++ js "?x" := by
        intro h
        rcases List.mem_append.mp h with h | h
        · exact hp h
        · exact absurd h (by decide)
      have hs : p ++ js "?x=SCIPER123" = (p ++ js "?x") ++ equalsUnit :: js "SCIPER123" := by
        rw [List.append_assoc]
        congr 1
      rw [hs, derivedValue_split _ _ hq]
    simp only [linkUrls, List.map_cons, List.map_nil, key p₁ h₁, key p₂ h₂, key p₃ h₃, key p₄ h₄]

theorem GetSciper_entries_witness :
    (∃ grid, (GetSciper () sciperHost).result = .ok grid ∧
      ∀ i j : Nat, (grid[i]?.bind fun r => r[j]?) =
        (([[sciperCell, sciperCell], [sciperCell, sciperCell]] : List (List RichTextValue))[i]?.bind
          fun ia => ia[j]?).map fun row => derivedValue row.linkUrl) ∧
      (GetSciper () sciperHost).result =
        .ok [[js "SCIPER123", js "SCIPER123"], [js "SCIPER123", js "SCIPER123"]] :=
  ⟨GetSciper_entries.1 Unit JSString () sciperHost
      [[sciperCell, sciperCell], [sciperCell, sciperCell]] rfl,
    GetSciper_entries.2 Unit JSString () sciperHost (js "...") (js "...") (js "...") (js "...")
      (by decide) (by decide) (by decide) (by decide) (by decide) rfl⟩

/-- C3: when the range reference of the formula resolves to a grid of cells, the grid the
function returns has as many rows as the range and each of its rows has as many entries as
the row of the range at the same index; for a range of `m` rows of `n` cells, the result
has `m` rows of `n` entries. -/
theorem GetSciper_dimensions {α ε : Type} (input : α) (host : Host ε)
    (values : List (List RichTextValue))
    (h : host.getRange (matches_ host.formula) = .ok values) :
    ∃ grid, (GetSciper input host).result = .ok grid ∧
      grid.length = values.length ∧
      (∀ i : Nat, grid[i]?.map List.length = values[i]?.map List.length) ∧
      ∀ m n : Nat, values.length = m → (∀ ia ∈ values, ia.length = n) →
        grid.length = m ∧ ∀ r ∈ grid, r.length = n := by
  rw [GetSciper_of_ok input host values h]
  have hl := linkUrls_lengths values
  have hlen : (linkUrls values).length = values.length := by
    simpa using congrArg List.length hl
  refine ⟨linkUrls values, rfl, hlen, ?_, ?_⟩
  · intro i
    have := congrArg (fun l => l[i]?) hl
    simpa [List.getElem?_map] using this
  · intro m n hm hn
    refine ⟨hlen.trans hm, ?_⟩
    intro r hr
    unfold linkUrls at hr
    obtain ⟨ia, hia, rfl⟩ := List.mem_map.mp hr
    simpa using hn ia hia

theorem GetSciper_dimensions_witness :
    ∃ grid, (GetSciper () sciperHost).result = .ok grid ∧ grid.length = 2 ∧
      ∀ r ∈ grid, r.length = 2 := by
  obtain ⟨grid, hg, _, _, hrect⟩ := GetSciper_dimensions () sciperHost
    [[sciperCell, sciperCell], [sciperCell, sciperCell]] rfl
  exact ⟨grid, hg, hrect 2 2 (by decide) (by decide)⟩

/-- C8: for a formula with neither `(` nor `)`, under a host whose range resolution throws
`e` on `undefined`, the call throws `e` and returns no grid; the range resolution on
`undefined` is its last host call, so no rich-text value and no hyperlink is read; and any
call on a host in that situation has this same outcome. -/
theorem GetSciper_without_parens {α ε : Type} (input : α) (host : Host ε) (e : ε)
    (hl : lparenUnit ∉ host.formula) (_hr : rparenUnit ∉ host.formula)
    (hfail : host.getRange none = .error e) :
    (GetSciper input host).result = .error e ∧
      (∀ grid, (GetSciper input host).result ≠ .ok grid) ∧
      (GetSciper input host).calls = openingCalls ++ [HostCall.getRange none] ∧
      HostCall.getRichTextValues ∉ (GetSciper input host).calls ∧
      (∀ i j, HostCall.getLinkUrl i j ∉ (GetSciper input host).calls) ∧
      ∀ (input2 : α) (host2 : Host ε), lparenUnit ∉ host2.formula → rparenUnit ∉ host2.formula →
        host2.getRange none = .error e → GetSciper input2 host2 = GetSciper input host := by
  have key : ∀ (inp : α) (hst : Host ε), lparenUnit ∉ hst.formula → hst.getRange none = .error e →
      GetSciper inp hst = ⟨openingCalls ++ [HostCall.getRange none], .error e⟩ := by
    intro inp hst h1 h2
    have hm : matches_ hst.formula = none := (matches_undefined_iff hst.formula).mpr (Or.inl h1)
    rw [← hm] at h2
    rw [GetSciper_of_error inp hst e h2, hm]
  rw [key input host hl hfail]
  refine ⟨rfl, ?_, rfl, ?_, ?_, ?_⟩
  · intro grid hg
    cases hg
  · simp [openingCalls]
  · intro i j
    simp [openingCalls]
  · intro input2 host2 h1 _ h3
    exact key input2 host2 h1 h3

theorem GetSciper_without_parens_witness :
    (GetSciper () (strictHost (js "=A1"))).result = .error (js "Range not found") ∧
      ∀ i j, HostCall.getLinkUrl i j ∉ (GetSciper () (strictHost (js "=A1"))).calls :=
  ⟨(GetSciper_without_parens () (strictHost (js "=A1")) (js "Range not found")
      (by decide) (by decide) rfl).1,
    (GetSciper_without_parens () (strictHost (js "=A1")) (js "Range not found")
      (by decide) (by decide) rfl).2.2.2.2.1⟩

end AdrVote
